import Mathlib

/-!
Shallow embedding of the `zombo` crate (MikhailKravets/zomboid).

The embedded source files:
* `src/crates/zombo/src/lib.rs` — the `Zomboid` windowed aggregator
  (`stream`, `describe`, `set_take`, `set_skip`);
* `src/crates/zombo/src/model.rs` — `Item`, `Stat` and their `RowDisplay`
  implementations;
* `src/zombo/src/table.rs` — the `Table` renderer (`new`, `with_header`,
  `with_width`, `as_data`, the separator lines and the `Display` impl).

Modelling conventions:
* the single-pass `Iterator<Item = Result<Item, E>>` is a
  `List (Except ε Item)`; an operation that consumes from it returns the
  produced value together with the un-consumed suffix of the list;
* `usize` values are `Nat`; `usize::MAX` is the constant `USIZE_MAX`;
  `u32` accumulation (`+=` in `describe`) is `% U32MOD` after each add,
  i.e. the wrapping semantics of the 32-bit accumulator;
* a Rust panic (usize subtraction underflow, division by zero in the
  header renderer) is modelled as `Option.none`; rendering functions
  therefore return `Option`;
* an `f64` produced by `(a as f64) / (b as f64)` for `u32` values `a, b`
  is modelled by `FVal`: `FVal.nan` for `0/0`, `FVal.inf` for `a/0` with
  `a ≠ 0`, and `FVal.val (a / b : ℚ)` otherwise (both operands of the
  division are below `2^32 < 2^53`, hence exactly representable; only the
  final IEEE rounding of the quotient is idealised, which the spec's
  `1e-9` tolerance absorbs);
* rendered text is `List Char` and the rendered table is the list of its
  lines (the Rust `Display` impl emits exactly one `writeln!` per line).
-/

/-- `usize::MAX` on a 64-bit target. -/
def USIZE_MAX : Nat := 2 ^ 64 - 1

/-- The modulus of the `u32` accumulators in `Zomboid::describe`. -/
def U32MOD : Nat := 2 ^ 32

/-- `model::Item` — one parsed inventory record. -/
structure Item where
  id : Nat
  name : String
  item_type : String
  condition : String
  amount : Nat
deriving DecidableEq, Repr

/-- The value of an `f64` arising as a quotient of two `u32` casts. -/
inductive FVal where
  | nan
  | inf
  | val (q : ℚ)
deriving DecidableEq, Repr

/-- `(a as f64) / (b as f64)` for `u32` values `a`, `b`. -/
def fdiv (a b : Nat) : FVal :=
  if b = 0 then (if a = 0 then FVal.nan else FVal.inf) else FVal.val ((a : ℚ) / (b : ℚ))

/-- `model::Stat` — one per-condition statistic produced by `describe`. -/
structure Stat where
  name : String
  value : FVal
deriving DecidableEq, Repr

/-- A list of records that all parsed successfully. -/
def okList {ε : Type} : List Item → List (Except ε Item)
  | [] => []
  | x :: l => Except.ok x :: okList l

/-- `table::Table` — data plus optional header and character width. -/
structure Table (α : Type) where
  header : Option (List String)
  width : Nat
  data : List α
deriving DecidableEq, Repr

/-- `Table::new`: no header, default width 100. -/
def Table.new {α : Type} (data : List α) : Table α :=
  { header := none, width := 100, data := data }

/-- `Table::with_header`. -/
def Table.with_header {α : Type} (t : Table α) (h : List String) : Table α :=
  { t with header := some h }

/-- `Table::with_width`. -/
def Table.with_width {α : Type} (t : Table α) (w : Nat) : Table α :=
  { t with width := w }

/-- `Table::as_data`. -/
def Table.as_data {α : Type} (t : Table α) : List α := t.data

/-- The `Zomboid` aggregator: the remaining iterator plus the window state. -/
structure Zomboid (ε : Type) where
  it : List (Except ε Item)
  _take : Option Nat
  _skip : Option Nat

/-- `Zomboid::new`. -/
def Zomboid.new {ε : Type} (it : List (Except ε Item)) : Zomboid ε :=
  { it := it, _take := none, _skip := none }

/-- `Zomboid::set_take`. -/
def Zomboid.set_take {ε : Type} (z : Zomboid ε) (v : Option Nat) : Zomboid ε :=
  { z with _take := v }

/-- `Zomboid::set_skip`. -/
def Zomboid.set_skip {ε : Type} (z : Zomboid ε) (v : Option Nat) : Zomboid ε :=
  { z with _skip := v }

/-- The `.take(t)` + `collect::<Result<Vec, E>>()` part of `stream`: consume
up to `t` elements, collecting `Ok` items and stopping at the first `Err`
(which is consumed). Returns the collected result and the un-consumed
suffix of the input. -/
def collectTake {ε : Type} : Nat → List (Except ε Item) → Except ε (List Item) × List (Except ε Item)
  | 0, l => (Except.ok [], l)
  | _ + 1, [] => (Except.ok [], [])
  | _ + 1, Except.error e :: rest => (Except.error e, rest)
  | t + 1, Except.ok x :: rest =>
      match collectTake t rest with
      | (Except.ok xs, rem) => (Except.ok (x :: xs), rem)
      | (Except.error e, rem) => (Except.error e, rem)

/-- `self.it.by_ref().skip(s).take(t).collect::<Result<Vec<Item>, E>>()`.
`Skip` discards its `s` elements lazily on the first `next()` call of the
`Take` adapter, so with `t = 0` nothing at all is consumed. -/
def streamRun {ε : Type} (s t : Nat) (l : List (Except ε Item)) :
    Except ε (List Item) × List (Except ε Item) :=
  if t = 0 then (Except.ok [], l) else collectTake t (l.drop s)

/-- `Zomboid::stream`: build the item table from the windowed iterator.
Returns the call's result together with the post-call aggregator state. -/
def Zomboid.stream {ε : Type} (z : Zomboid ε) : Except ε (Table Item) × Zomboid ε :=
  let r := streamRun (z._skip.getD 0) (z._take.getD USIZE_MAX) z.it
  (r.1.map (fun items => (Table.new items).with_header ["ID", "NAME", "TYPE", "CONDITION", "AMOUNT"]),
   { z with it := r.2 })

/-- `map_per_condition.entry(condition).or_insert(0) += amount`, on an
association list in insertion order, with the `u32` wrapping add. -/
def addToGroup : List (String × Nat) → String → Nat → List (String × Nat)
  | [], c, a => [(c, a % U32MOD)]
  | (k, v) :: rest, c, a =>
      if k = c then (k, (v + a) % U32MOD) :: rest
      else (k, v) :: addToGroup rest c a

/-- The `for v in … { let item = v?; … }` loop of `describe`: consume up to
`t` elements, accumulating the per-condition map and the grand total (both
wrapping `u32`), aborting at the first `Err` (which is consumed). -/
def descLoop {ε : Type} : Nat → List (Except ε Item) → List (String × Nat) → Nat →
    Except ε (List (String × Nat) × Nat) × List (Except ε Item)
  | 0, l, g, tot => (Except.ok (g, tot), l)
  | _ + 1, [], g, tot => (Except.ok (g, tot), [])
  | _ + 1, Except.error e :: rest, _, _ => (Except.error e, rest)
  | t + 1, Except.ok x :: rest, g, tot =>
      descLoop t rest (addToGroup g x.condition x.amount) ((tot + x.amount) % U32MOD)

/-- The body of `Zomboid::describe` on the windowed iterator: the
accumulation loop followed by the `Stat` construction
`value = (amount as f64) / (total as f64)`. -/
def describeRun {ε : Type} (s t : Nat) (l : List (Except ε Item)) :
    Except ε (List Stat) × List (Except ε Item) :=
  if t = 0 then (Except.ok [], l)
  else
    match descLoop t (l.drop s) [] 0 with
    | (Except.ok (g, tot), rem) =>
        (Except.ok (g.map fun p => { name := p.1, value := fdiv p.2 tot }), rem)
    | (Except.error e, rem) => (Except.error e, rem)

/-- `Zomboid::describe`: statistics table with header `["CONDITION", "%"]`
and width 40. Returns the result and the post-call aggregator state. -/
def Zomboid.describe {ε : Type} (z : Zomboid ε) : Except ε (Table Stat) × Zomboid ε :=
  let r := describeRun (z._skip.getD 0) (z._take.getD USIZE_MAX) z.it
  (r.1.map (fun stats =>
      ((Table.new stats).with_header ["CONDITION", "%"]).with_width 40),
   { z with it := r.2 })

/-- Mathematical (unwrapped) sum of the `amount` fields. -/
def sumAmounts : List Item → Nat
  | [] => 0
  | i :: l => i.amount + sumAmounts l

/-- Mathematical (unwrapped) sum of the `amount` fields of the records whose
`condition` equals `c`. -/
def condSum (c : String) : List Item → Nat
  | [] => 0
  | i :: l => (if i.condition = c then i.amount else 0) + condSum c l

/-- The distinct elements of a list, keeping first occurrences in order —
the key order produced by insertion into the per-condition map. -/
def firstDedup : List String → List String
  | [] => []
  | x :: xs => x :: (firstDedup xs).filter (fun y => y ≠ x)

/-- Sum of the (rational) values of a list of stats, reading a non-finite
value as `0`. -/
def statSum (l : List Stat) : ℚ :=
  (l.map fun s => match s.value with | FVal.val q => q | _ => 0).sum

/-- `a - b` on `usize`: `none` models the Rust underflow panic. -/
def checkedSub (a b : Nat) : Option Nat :=
  if b ≤ a then some (a - b) else none

/-- Rust's `{:^width$}` centre alignment: pad to `width` with spaces, the
left pad being `padding / 2` (the extra space goes to the right); content
longer than `width` is emitted unchanged. -/
def center (s : List Char) (w : Nat) : List Char :=
  if w ≤ s.length then s
  else
    List.replicate ((w - s.length) / 2) ' ' ++ s
      ++ List.replicate ((w - s.length) - (w - s.length) / 2) ' '

/-- A separator line `format!("┌{:─^width$}┐", "")` with `width = w - 2`:
the corner glyphs around `w - 2` rule characters. `none` models the panic
when `w < 2`. -/
def sepLine (l r : Char) (w : Nat) : Option (List Char) :=
  (checkedSub w 2).map fun n => l :: (List.replicate n '─' ++ [r])

/-- `impl RowDisplay for Item`: five centred cells of width
`table_width / 5 - 3`. `none` models the underflow panic when
`table_width / 5 < 3`. -/
def Item.to_row (i : Item) (table_width : Nat) : Option (List Char) :=
  (checkedSub (table_width / 5) 3).map fun w =>
    ('│' :: ' ' :: center (toString i.id).data w)
      ++ (' ' :: '│' :: ' ' :: center i.name.data w)
      ++ (' ' :: '│' :: ' ' :: center i.item_type.data w)
      ++ (' ' :: '│' :: ' ' :: center i.condition.data w)
      ++ (' ' :: '│' :: ' ' :: center (toString i.amount).data w)
      ++ ['│']

/-- `impl RowDisplay for Vec<H>` — the header row: cells of width
`table_width / len - 3`, each written as `"│ {cell} "`, then the trailing
space is popped and `'│'` pushed. `none` models the division-by-zero panic
on an empty header and the underflow panic on undersized widths. -/
def headerToRow (cells : List String) (table_width : Nat) : Option (List Char) :=
  if cells.length = 0 then none
  else
    (checkedSub (table_width / cells.length) 3).map fun w =>
      ((cells.map fun c => '│' :: ' ' :: (center c.data w ++ [' '])).flatten).dropLast ++ ['│']

/-- The per-row part of `Display for Table`: one rendered line per data row,
in order; `none` as soon as one row panics. -/
def renderRows {α : Type} (rowFn : α → Nat → Option (List Char)) (w : Nat) :
    List α → Option (List (List Char))
  | [] => some []
  | r :: rest =>
      match rowFn r w, renderRows rowFn w rest with
      | some line, some ls => some (line :: ls)
      | _, _ => none

/-- `impl Display for Table`: the three separator lines are built first
(so an undersized `width` aborts whether or not they are all used), then
top border, optional header row plus middle border, the data rows in
order, and the bottom border. Each element of the result is one output
line (`writeln!`). -/
def Table.render {α : Type} (t : Table α) (rowFn : α → Nat → Option (List Char)) :
    Option (List (List Char)) :=
  match sepLine '┌' '┐' t.width, sepLine '├' '┤' t.width, sepLine '└' '┘' t.width with
  | some top, some mid, some bot =>
      match t.header with
      | none =>
          match renderRows rowFn t.width t.data with
          | some rls => some (top :: rls ++ [bot])
          | none => none
      | some hd =>
          match headerToRow hd t.width, renderRows rowFn t.width t.data with
          | some hl, some rls => some (top :: hl :: mid :: rls ++ [bot])
          | _, _ => none
  | _, _, _ => none

theorem okList_length {ε : Type} (l : List Item) :
    (okList (ε := ε) l).length = l.length := by
  induction l with
  | nil => rfl
  | cons x xs ih => simp [okList, ih]

theorem okList_drop {ε : Type} (l : List Item) (n : Nat) :
    (okList (ε := ε) l).drop n = okList (l.drop n) := by
  induction l generalizing n with
  | nil => simp [okList]
  | cons x xs ih =>
      cases n with
      | zero => rfl
      | succ n => simpa [okList] using ih n

theorem collectTake_okList {ε : Type} (t : Nat) (l : List Item) :
    collectTake (ε := ε) t (okList l) = (Except.ok (l.take t), okList (l.drop t)) := by
  induction l generalizing t with
  | nil => cases t <;> simp [collectTake, okList]
  | cons x xs ih =>
      cases t with
      | zero => simp [collectTake]
      | succ t => simp [collectTake, okList, ih]

theorem streamRun_okList_fst {ε : Type} (s t : Nat) (l : List Item) :
    (streamRun (ε := ε) s t (okList l)).1 = Except.ok ((l.drop s).take t) := by
  unfold streamRun
  by_cases ht : t = 0
  · simp [ht]
  · simp [ht, okList_drop, collectTake_okList]

theorem streamRun_okList_snd {ε : Type} (s t : Nat) (l : List Item) (ht : t ≠ 0) :
    (streamRun (ε := ε) s t (okList l)).2 = okList (l.drop (s + t)) := by
  unfold streamRun
  simp [ht, okList_drop, collectTake_okList, List.drop_drop]

theorem drop_okList_append {ε : Type} (a : List Item) (rest : List (Except ε Item))
    (s : Nat) (hs : s ≤ a.length) :
    (okList (ε := ε) a ++ rest).drop s = okList (a.drop s) ++ rest := by
  rw [List.drop_append_of_le_length (by rw [okList_length]; exact hs), okList_drop]

theorem collectTake_reaches_error {ε : Type} (e : ε) (b : List Item)
    (rest : List (Except ε Item)) (t : Nat) (hb : b.length < t) :
    collectTake t (okList b ++ Except.error e :: rest) = (Except.error e, rest) := by
  induction b generalizing t with
  | nil =>
      cases t with
      | zero => omega
      | succ t => simp [collectTake, okList]
  | cons x xs ih =>
      cases t with
      | zero => omega
      | succ t =>
          have : xs.length < t := by simpa using hb
          simp [collectTake, okList, ih t this]

theorem descLoop_reaches_error {ε : Type} (e : ε) (b : List Item)
    (rest : List (Except ε Item)) (t : Nat) (g : List (String × Nat)) (tot : Nat)
    (hb : b.length < t) :
    descLoop t (okList b ++ Except.error e :: rest) g tot = (Except.error e, rest) := by
  induction b generalizing t g tot with
  | nil =>
      cases t with
      | zero => omega
      | succ t => simp [descLoop, okList]
  | cons x xs ih =>
      cases t with
      | zero => omega
      | succ t =>
          have : xs.length < t := by simpa using hb
          simp [descLoop, okList, ih t _ _ this]

theorem condSum_append (c : String) (l₁ l₂ : List Item) :
    condSum c (l₁ ++ l₂) = condSum c l₁ + condSum c l₂ := by
  induction l₁ with
  | nil => simp [condSum]
  | cons i rest ih => simp [condSum, ih]; ring

theorem sumAmounts_append (l₁ l₂ : List Item) :
    sumAmounts (l₁ ++ l₂) = sumAmounts l₁ + sumAmounts l₂ := by
  induction l₁ with
  | nil => simp [sumAmounts]
  | cons i rest ih => simp [sumAmounts, ih]; ring

theorem condSum_eq_zero (c : String) (l : List Item) (h : ∀ i ∈ l, i.condition ≠ c) :
    condSum c l = 0 := by
  induction l with
  | nil => rfl
  | cons i rest ih =>
      have hi := h i (List.mem_cons_self i rest)
      simp [condSum, hi, ih fun j hj => h j (List.mem_cons_of_mem i hj)]

theorem condSum_le_sumAmounts (c : String) (l : List Item) :
    condSum c l ≤ sumAmounts l := by
  induction l with
  | nil => exact Nat.le_refl 0
  | cons i rest ih =>
      simp only [condSum, sumAmounts]
      split <;> omega

theorem condSum_all (c : String) (l : List Item) (h : ∀ i ∈ l, i.condition = c) :
    condSum c l = sumAmounts l := by
  induction l with
  | nil => rfl
  | cons i rest ih =>
      have hi := h i (List.mem_cons_self i rest)
      simp [condSum, sumAmounts, hi, ih fun j hj => h j (List.mem_cons_of_mem i hj)]

theorem mem_firstDedup (a : String) (l : List String) :
    a ∈ firstDedup l ↔ a ∈ l := by
  induction l with
  | nil => simp [firstDedup]
  | cons x xs ih =>
      by_cases hax : a = x
      · simp [firstDedup, hax]
      · simp [firstDedup, hax, List.mem_filter, ih]

theorem firstDedup_nodup (l : List String) : (firstDedup l).Nodup := by
  induction l with
  | nil => exact List.nodup_nil
  | cons x xs ih =>
      rw [firstDedup, List.nodup_cons]
      refine ⟨fun hx => ?_, ih.filter _⟩
      rcases List.mem_filter.mp hx with ⟨_, hne⟩
      simp at hne

theorem firstDedup_append_singleton (l : List String) (c : String) :
    firstDedup (l ++ [c])
      = if c ∈ l then firstDedup l else firstDedup l ++ [c] := by
  induction l with
  | nil => simp [firstDedup]
  | cons x xs ih =>
      rw [List.cons_append, firstDedup, firstDedup, ih]
      by_cases hc : c ∈ xs
      · rw [if_pos hc, if_pos (List.mem_cons_of_mem x hc)]
      · by_cases hcx : c = x
        · subst hcx
          rw [if_neg hc, if_pos (List.mem_cons_self c xs), List.filter_append]
          simp
        · rw [if_neg hc, if_neg (by simp [hcx, hc] : ¬c ∈ x :: xs), List.filter_append]
          simp [hcx]

theorem firstDedup_const (cs : List String) (c : String)
    (h : ∀ x ∈ cs, x = c) (hne : cs ≠ []) : firstDedup cs = [c] := by
  induction cs with
  | nil => cases hne rfl
  | cons x xs ih =>
      have hx : x = c := h x (List.mem_cons_self x xs)
      subst hx
      by_cases hxs : xs = []
      · subst hxs; simp [firstDedup]
      · rw [firstDedup, ih (fun y hy => h y (List.mem_cons_of_mem x hy)) hxs]
        simp

theorem addToGroup_map_mem (cs : List String) (f : String → Nat) (c : String) (a : Nat)
    (hnd : cs.Nodup) (hc : c ∈ cs) :
    addToGroup (cs.map fun k => (k, f k)) c a
      = cs.map fun k => (k, if k = c then (f k + a) % U32MOD else f k) := by
  induction cs with
  | nil => cases hc
  | cons k rest ih =>
      rcases List.nodup_cons.mp hnd with ⟨hk, hrest⟩
      by_cases hkc : k = c
      · subst hkc
        simp only [List.map_cons, addToGroup, if_pos rfl, eq_self_iff_true, if_true, ite_true]
        congr 1
        apply List.map_congr_left
        intro x hx
        have hxk : ¬x = k := fun h => hk (h ▸ hx)
        simp [hxk]
      · have hcrest : c ∈ rest := by
          rcases List.mem_cons.mp hc with h | h
          · exact absurd h.symm hkc
          · exact h
        simp only [List.map_cons, addToGroup, if_neg hkc, ih hrest hcrest, hkc, ite_false]

theorem addToGroup_map_not_mem (cs : List String) (f : String → Nat) (c : String) (a : Nat)
    (hc : c ∉ cs) :
    addToGroup (cs.map fun k => (k, f k)) c a
      = (cs.map fun k => (k, f k)) ++ [(c, a % U32MOD)] := by
  induction cs with
  | nil => simp [addToGroup]
  | cons k rest ih =>
      have hkc : ¬k = c := fun h => hc (h ▸ List.mem_cons_self k rest)
      have hcr : c ∉ rest := fun h => hc (List.mem_cons_of_mem _ h)
      simp [addToGroup, hkc, ih hcr]

theorem groups_spec (w : List Item) :
    w.foldl (fun acc i => addToGroup acc i.condition i.amount) []
      = (firstDedup (w.map fun i => i.condition)).map
          fun c => (c, condSum c w % U32MOD) := by
  induction w using List.reverseRecOn with
  | nil => simp [firstDedup]
  | append_singleton l i ih =>
      rw [List.foldl_append, List.foldl_cons, List.foldl_nil, ih]
      rw [List.map_append, List.map_cons, List.map_nil, firstDedup_append_singleton]
      by_cases hc : i.condition ∈ l.map fun j => j.condition
      · rw [addToGroup_map_mem _ _ _ _ (firstDedup_nodup _) ((mem_firstDedup _ _).mpr hc),
          if_pos hc]
        apply List.map_congr_left
        intro x hx
        by_cases hxc : x = i.condition
        · subst hxc
          simp [condSum_append, condSum, Nat.mod_add_mod]
        · have hcx : ¬i.condition = x := fun h => hxc h.symm
          simp only [condSum_append, condSum, hcx, if_false, ite_false, Nat.add_zero]
          simp [hxc]
      · rw [addToGroup_map_not_mem _ _ _ _ (fun h => hc ((mem_firstDedup _ _).mp h)),
          if_neg hc, List.map_append, List.map_cons, List.map_nil]
        congr 1
        · apply List.map_congr_left
          intro x hx
          have hxc : ¬i.condition = x := by
            intro h
            exact hc (h ▸ (mem_firstDedup _ _).mp hx)
          simp [condSum_append, condSum, hxc]
        · have hz : condSum i.condition l = 0 := by
            apply condSum_eq_zero
            intro j hj hcj
            exact hc (hcj ▸ List.mem_map_of_mem (fun j => j.condition) hj)
          simp [condSum_append, condSum, hz]

theorem total_fold (w : List Item) (tot : Nat) :
    w.foldl (fun acc i => (acc + i.amount) % U32MOD) (tot % U32MOD)
      = (tot + sumAmounts w) % U32MOD := by
  induction w generalizing tot with
  | nil => simp [sumAmounts]
  | cons i rest ih =>
      simp only [List.foldl_cons, Nat.mod_add_mod]
      rw [ih (tot + i.amount)]
      simp [sumAmounts, Nat.add_assoc]

theorem descLoop_okList {ε : Type} (t : Nat) (l : List Item)
    (g : List (String × Nat)) (tot : Nat) :
    descLoop (ε := ε) t (okList l) g tot
      = (Except.ok ((l.take t).foldl (fun acc i => addToGroup acc i.condition i.amount) g,
          (l.take t).foldl (fun acc i => (acc + i.amount) % U32MOD) tot),
         okList (l.drop t)) := by
  induction l generalizing t g tot with
  | nil => cases t <;> simp [descLoop, okList]
  | cons x xs ih =>
      cases t with
      | zero => simp [descLoop]
      | succ t => simp [descLoop, okList, ih]

theorem sum_map_addf {α : Type} (l : List α) (f g : α → Nat) :
    (l.map fun x => f x + g x).sum = (l.map f).sum + (l.map g).sum := by
  induction l with
  | nil => rfl
  | cons x xs ih => simp [ih]; ring

theorem sum_map_ite_single (cs : List String) (c : String) (v : Nat)
    (hnd : cs.Nodup) (hc : c ∈ cs) :
    (cs.map fun k => if c = k then v else 0).sum = v := by
  induction cs with
  | nil => cases hc
  | cons k rest ih =>
      rcases List.nodup_cons.mp hnd with ⟨hk, hrest⟩
      by_cases hck : c = k
      · subst hck
        simp only [List.map_cons, List.sum_cons]
        have hz : (rest.map fun k => if c = k then v else 0).sum = 0 := by
          apply List.sum_eq_zero
          intro x hx
          rcases List.mem_map.mp hx with ⟨k', hk', rfl⟩
          have : ¬c = k' := fun h => hk (h ▸ hk')
          simp [this]
        simp [hz]
      · have hcr : c ∈ rest := by
          rcases List.mem_cons.mp hc with h | h
          · exact absurd h hck
          · exact h
        simp [hck, ih hrest hcr]

theorem sum_condSum (w : List Item) (cs : List String) (hnd : cs.Nodup)
    (hcov : ∀ i ∈ w, i.condition ∈ cs) :
    (cs.map fun c => condSum c w).sum = sumAmounts w := by
  induction w with
  | nil =>
      simp only [sumAmounts]
      apply List.sum_eq_zero
      intro x hx
      rcases List.mem_map.mp hx with ⟨k, _, rfl⟩
      rfl
  | cons i rest ih =>
      have hcov2 : ∀ j ∈ rest, j.condition ∈ cs := fun j hj => hcov j (List.mem_cons_of_mem i hj)
      have hi : i.condition ∈ cs := hcov i (List.mem_cons_self i rest)
      simp only [condSum, sumAmounts]
      rw [sum_map_addf, sum_map_ite_single cs i.condition i.amount hnd hi, ih hcov2]

theorem fdiv_self (a : Nat) (ha : a ≠ 0) : fdiv a a = FVal.val 1 := by
  unfold fdiv
  rw [if_neg ha]
  congr 1
  exact div_self (Nat.cast_ne_zero.mpr ha)

theorem describeRun_okList {ε : Type} (s t : Nat) (l : List Item) (ht : t ≠ 0) :
    describeRun (ε := ε) s t (okList l)
      = (Except.ok ((((l.drop s).take t).foldl
            (fun acc i => addToGroup acc i.condition i.amount) []).map
            fun p => { name := p.1,
                       value := fdiv p.2 (((l.drop s).take t).foldl
                         (fun acc i => (acc + i.amount) % U32MOD) 0) }),
         okList ((l.drop s).drop t)) := by
  unfold describeRun
  rw [if_neg ht, okList_drop, descLoop_okList]

theorem describe_window_stats {ε : Type} (s t : Nat) (l : List Item) (ht : t ≠ 0)
    (w : List Item) (hw : w = (l.drop s).take t) :
    (describeRun (ε := ε) s t (okList l)).1
      = Except.ok ((firstDedup (w.map fun i => i.condition)).map
          fun c => { name := c,
                     value := fdiv (condSum c w % U32MOD) (sumAmounts w % U32MOD) }) := by
  subst hw
  have htot : ((l.drop s).take t).foldl (fun acc i => (acc + i.amount) % U32MOD) 0
      = sumAmounts ((l.drop s).take t) % U32MOD := by
    simpa using total_fold ((l.drop s).take t) 0
  rw [describeRun_okList s t l ht]
  simp only [groups_spec, htot, List.map_map]
  rfl

/-- C1: for every finite sequence `S` of successfully-parsed records and
every window `skip = s`, `take = t`, `Zomboid::stream` returns exactly
`min(t, max(0, |S| - s))` records, in original order, drawn from positions
`[s, s + t)` of the sequence; an absent skip behaves as `0` and an absent
take as unbounded (for any source that fits in a `usize` count). -/
theorem stream_window_spec {ε : Type} (items : List Item) (s t : Option Nat)
    (hlen : items.length ≤ USIZE_MAX) :
    ((((Zomboid.new (okList (ε := ε) items)).set_take t).set_skip s).stream).1
      = Except.ok ((Table.new ((items.drop (s.getD 0)).take (t.getD USIZE_MAX))).with_header
          ["ID", "NAME", "TYPE", "CONDITION", "AMOUNT"])
    ∧ ((items.drop (s.getD 0)).take (t.getD USIZE_MAX)).length
      = min (t.getD items.length) (items.length - s.getD 0) := by
  constructor
  · simp only [Zomboid.stream, Zomboid.new, Zomboid.set_take, Zomboid.set_skip,
      streamRun_okList_fst, Except.map]
  · rw [List.length_take, List.length_drop]
    cases t with
    | none =>
        simp only [Option.getD]
        have hm : items.length - s.getD 0 ≤ USIZE_MAX := le_trans (Nat.sub_le _ _) hlen
        omega
    | some tv => rfl

/-- Witness for `stream_window_spec` at a concrete three-record source with
`skip = 1`, `take = 1`. -/
theorem stream_window_spec_witness :
    ([⟨1, "a", "t", "A", 1⟩, ⟨2, "b", "t", "B", 2⟩, ⟨3, "c", "t", "C", 3⟩] : List Item).length ≤ USIZE_MAX
    ∧ (((((Zomboid.new (okList (ε := Unit) [⟨1, "a", "t", "A", 1⟩, ⟨2, "b", "t", "B", 2⟩, ⟨3, "c", "t", "C", 3⟩])).set_take
            (some 1)).set_skip (some 1)).stream).1
        = Except.ok ((Table.new ((([⟨1, "a", "t", "A", 1⟩, ⟨2, "b", "t", "B", 2⟩, ⟨3, "c", "t", "C", 3⟩] : List Item).drop
            ((some 1).getD 0)).take ((some 1).getD USIZE_MAX))).with_header
            ["ID", "NAME", "TYPE", "CONDITION", "AMOUNT"])
        ∧ ((([⟨1, "a", "t", "A", 1⟩, ⟨2, "b", "t", "B", 2⟩, ⟨3, "c", "t", "C", 3⟩] : List Item).drop
            ((some 1).getD 0)).take ((some 1).getD USIZE_MAX)).length
          = min ((some 1).getD ([⟨1, "a", "t", "A", 1⟩, ⟨2, "b", "t", "B", 2⟩, ⟨3, "c", "t", "C", 3⟩] : List Item).length)
              (([⟨1, "a", "t", "A", 1⟩, ⟨2, "b", "t", "B", 2⟩, ⟨3, "c", "t", "C", 3⟩] : List Item).length - (some 1).getD 0)) :=
  ⟨by norm_num [USIZE_MAX],
   stream_window_spec [⟨1, "a", "t", "A", 1⟩, ⟨2, "b", "t", "B", 2⟩, ⟨3, "c", "t", "C", 3⟩]
     (some 1) (some 1) (by norm_num [USIZE_MAX])⟩

/-- C2 counterexample: a source whose only element is an `Err`, with
`skip = 1`. The error lies in the skipped region; the claim says the call
must return that error, but `stream` returns `Ok` with an empty table —
`Iterator::skip` discards skipped `Result` values, errors included. -/
theorem stream_skip_error_discarded :
    ((((Zomboid.new (ε := Unit) [Except.error ()]).set_take none).set_skip (some 1)).stream).1
      = Except.ok ((Table.new ([] : List Item)).with_header
          ["ID", "NAME", "TYPE", "CONDITION", "AMOUNT"]) := by rfl

/-- C2 amended: errors among the skipped elements are discarded, not
returned; the first error reached inside the taken window aborts both
`stream` and `describe` with exactly that error and no partial result,
while a window that never reaches an error succeeds regardless of what
the skipped region contained. -/
theorem fail_fast_within_window {ε : Type} (e : ε) (a : List Item)
    (rest : List (Except ε Item)) (s t : Nat)
    (hs : s ≤ a.length) (ht : a.length - s < t) :
    ((((Zomboid.new (okList a ++ Except.error e :: rest)).set_take (some t)).set_skip (some s)).stream).1
      = Except.error e
    ∧ ((((Zomboid.new (okList a ++ Except.error e :: rest)).set_take (some t)).set_skip (some s)).describe).1
      = Except.error e
    ∧ (∀ (p : List (Except ε Item)) (b : List Item), p.length = s →
        ((((Zomboid.new (p ++ okList b)).set_take (some t)).set_skip (some s)).stream).1
          = Except.ok ((Table.new (b.take t)).with_header
              ["ID", "NAME", "TYPE", "CONDITION", "AMOUNT"])) := by
  have ht0 : t ≠ 0 := by omega
  refine ⟨?_, ?_, ?_⟩
  · have hd := drop_okList_append (ε := ε) a (Except.error e :: rest) s hs
    have hlen : (a.drop s).length < t := by
      rw [List.length_drop]; exact ht
    simp only [Zomboid.stream, Zomboid.new, Zomboid.set_take, Zomboid.set_skip, streamRun,
      Option.getD, if_neg ht0, hd, collectTake_reaches_error e _ _ t hlen, Except.map]
  · have hd := drop_okList_append (ε := ε) a (Except.error e :: rest) s hs
    have hlen : (a.drop s).length < t := by
      rw [List.length_drop]; exact ht
    simp only [Zomboid.describe, Zomboid.new, Zomboid.set_take, Zomboid.set_skip, describeRun,
      Option.getD, if_neg ht0, hd, descLoop_reaches_error e _ _ t _ _ hlen, Except.map]
  · intro p b hp
    have hd : (p ++ okList (ε := ε) b).drop s = okList b := by
      rw [← hp, List.drop_left]
    simp only [Zomboid.stream, Zomboid.new, Zomboid.set_take, Zomboid.set_skip, streamRun,
      Option.getD, if_neg ht0, hd, collectTake_okList, Except.map]

/-- Witness for `fail_fast_within_window`: one good record, then an error,
with `skip = 1`, `take = 1` — the error is the first element of the taken
window. -/
theorem fail_fast_within_window_witness :
    1 ≤ ([⟨1, "a", "t", "A", 1⟩] : List Item).length
    ∧ ([⟨1, "a", "t", "A", 1⟩] : List Item).length - 1 < 1
    ∧ (((((Zomboid.new (okList [⟨1, "a", "t", "A", 1⟩] ++ Except.error () :: [])).set_take (some 1)).set_skip
          (some 1)).stream).1 = Except.error ()
      ∧ ((((Zomboid.new (okList [⟨1, "a", "t", "A", 1⟩] ++ Except.error () :: [])).set_take (some 1)).set_skip
          (some 1)).describe).1 = Except.error ()
      ∧ (∀ (p : List (Except Unit Item)) (b : List Item), p.length = 1 →
          ((((Zomboid.new (p ++ okList b)).set_take (some 1)).set_skip (some 1)).stream).1
            = Except.ok ((Table.new (b.take 1)).with_header
                ["ID", "NAME", "TYPE", "CONDITION", "AMOUNT"]))) :=
  ⟨by decide, by decide,
   fail_fast_within_window () [⟨1, "a", "t", "A", 1⟩] [] 1 1 (by decide) (by decide)⟩

/-- C8: `stream` is not idempotent — with `skip = s`, `take = t` (`t > 0`)
over a long-enough all-`Ok` source, the first call consumes exactly
`s + t` elements, and a second call windows the remaining elements
starting at position `s + t` of the original sequence, not at its start. -/
theorem stream_not_idempotent {ε : Type} (items : List Item) (s t s2 t2 : Nat)
    (ht : 0 < t) (hlen : s + t ≤ items.length) :
    ((((Zomboid.new (okList (ε := ε) items)).set_take (some t)).set_skip (some s)).stream).2.it
      = okList (items.drop (s + t))
    ∧ ((((((((Zomboid.new (okList (ε := ε) items)).set_take (some t)).set_skip (some s)).stream).2).set_take
          (some t2)).set_skip (some s2)).stream).1
      = Except.ok ((Table.new ((items.drop (s + t + s2)).take t2)).with_header
          ["ID", "NAME", "TYPE", "CONDITION", "AMOUNT"]) := by
  have ht0 : t ≠ 0 := by omega
  have h2 : ((((Zomboid.new (okList (ε := ε) items)).set_take (some t)).set_skip (some s)).stream).2.it
      = okList (items.drop (s + t)) := by
    simp only [Zomboid.stream, Zomboid.new, Zomboid.set_take, Zomboid.set_skip]
    exact streamRun_okList_snd s t items ht0
  refine ⟨h2, ?_⟩
  simp only [Zomboid.stream, Zomboid.set_take, Zomboid.set_skip]
  simp only [Zomboid.stream, Zomboid.new, Zomboid.set_take, Zomboid.set_skip] at h2 ⊢
  rw [h2, streamRun_okList_fst, List.drop_drop, Except.map]
  simp only [Option.getD_some]

/-- Witness for `stream_not_idempotent`: four records, first call
`skip = 1`, `take = 2`, second call `skip = 0`, `take = 1`. -/
theorem stream_not_idempotent_witness :
    0 < 2 ∧ 1 + 2 ≤ ([⟨1, "a", "t", "A", 1⟩, ⟨2, "b", "t", "B", 2⟩, ⟨3, "c", "t", "C", 3⟩, ⟨4, "d", "t", "D", 4⟩] : List Item).length
    ∧ (((((Zomboid.new (okList (ε := Unit) [⟨1, "a", "t", "A", 1⟩, ⟨2, "b", "t", "B", 2⟩, ⟨3, "c", "t", "C", 3⟩, ⟨4, "d", "t", "D", 4⟩])).set_take
          (some 2)).set_skip (some 1)).stream).2.it
        = okList (([⟨1, "a", "t", "A", 1⟩, ⟨2, "b", "t", "B", 2⟩, ⟨3, "c", "t", "C", 3⟩, ⟨4, "d", "t", "D", 4⟩] : List Item).drop (1 + 2))
      ∧ ((((((((Zomboid.new (okList (ε := Unit) [⟨1, "a", "t", "A", 1⟩, ⟨2, "b", "t", "B", 2⟩, ⟨3, "c", "t", "C", 3⟩, ⟨4, "d", "t", "D", 4⟩])).set_take
          (some 2)).set_skip (some 1)).stream).2).set_take (some 1)).set_skip (some 0)).stream).1
        = Except.ok ((Table.new ((([⟨1, "a", "t", "A", 1⟩, ⟨2, "b", "t", "B", 2⟩, ⟨3, "c", "t", "C", 3⟩, ⟨4, "d", "t", "D", 4⟩] : List Item).drop
            (1 + 2 + 0)).take 1)).with_header ["ID", "NAME", "TYPE", "CONDITION", "AMOUNT"])) :=
  ⟨by decide, by decide,
   stream_not_idempotent [⟨1, "a", "t", "A", 1⟩, ⟨2, "b", "t", "B", 2⟩, ⟨3, "c", "t", "C", 3⟩, ⟨4, "d", "t", "D", 4⟩]
     1 2 0 1 (by decide) (by decide)⟩

/-- C3 (failing input): a one-record window whose `amount` is `0`. The grand
total is `0`, and `describe` divides `0.0 / 0.0` with no guard: it returns a
`Stat` whose value is NaN instead of the empty stats list the claim (and the
spec's mandated policy) requires. -/
theorem describe_zero_total_emits_nan :
    ((Zomboid.new (ε := Unit) [Except.ok ⟨1, "Hummer", "Tool", "Mint", 0⟩]).describe).1
      = Except.ok (((Table.new [{ name := "Mint", value := FVal.nan }]).with_header
          ["CONDITION", "%"]).with_width 40)
    ∧ ((Table.new [{ name := "Mint", value := FVal.nan }]).as_data : List Stat) ≠ [] := by
  exact ⟨rfl, by simp [Table.new, Table.as_data]⟩

/-- C5 counterexample: two "Mint" records with amount `2^31` each. The
window is non-empty, all records share one condition, and the grand total
of `amount` — the mathematical sum `2^32` — is non-zero, yet the wrapping
`u32` grand-total accumulator reaches `0`, so `describe` returns one
`Stat` valued `0.0 / 0.0 = NaN`, not `1.0` as the claim states. -/
theorem describe_single_condition_overflow_nan :
    sumAmounts [⟨1, "a", "t", "Mint", 2147483648⟩, ⟨2, "b", "t", "Mint", 2147483648⟩] ≠ 0
    ∧ (∀ i ∈ ([⟨1, "a", "t", "Mint", 2147483648⟩, ⟨2, "b", "t", "Mint", 2147483648⟩] : List Item),
        i.condition = "Mint")
    ∧ ((Zomboid.new (ε := Unit)
          (okList [⟨1, "a", "t", "Mint", 2147483648⟩, ⟨2, "b", "t", "Mint", 2147483648⟩])).describe).1
      = Except.ok (((Table.new [{ name := "Mint", value := FVal.nan }]).with_header
          ["CONDITION", "%"]).with_width 40)
    ∧ FVal.nan ≠ FVal.val 1 := by
  exact ⟨by decide, by decide, rfl, by decide⟩

/-- C5 amended: on a window where every record has the same condition `c`
and the grand total of `amount` (the mathematical sum) is non-zero **and
below `2^32`** (so the `u32` accumulators do not wrap), `describe` returns
exactly one `Stat`, named `c`, whose value is exactly `1.0`
(`total / total`). -/
theorem describe_single_condition_no_overflow {ε : Type} (items : List Item)
    (s t : Option Nat) (c : String)
    (w : List Item) (hw : w = (items.drop (s.getD 0)).take (t.getD USIZE_MAX))
    (hne : w ≠ []) (hcond : ∀ i ∈ w, i.condition = c)
    (hnz : sumAmounts w ≠ 0) (hover : sumAmounts w < U32MOD) :
    ((((Zomboid.new (okList (ε := ε) items)).set_take t).set_skip s).describe).1
      = Except.ok (((Table.new [{ name := c, value := FVal.val 1 }]).with_header
          ["CONDITION", "%"]).with_width 40) := by
  have htot : sumAmounts w % U32MOD ≠ 0 := by
    rw [Nat.mod_eq_of_lt hover]
    exact hnz
  have ht0 : t.getD USIZE_MAX ≠ 0 := by
    intro h0
    rw [h0, List.take_zero] at hw
    exact hne hw
  have hst := describe_window_stats (ε := ε) (s.getD 0) (t.getD USIZE_MAX) items ht0 w hw
  have hfd : firstDedup (w.map fun i => i.condition) = [c] := by
    apply firstDedup_const
    · intro x hx
      rcases List.mem_map.mp hx with ⟨i, hi, rfl⟩
      exact hcond i hi
    · exact fun hmap => hne (List.map_eq_nil_iff.mp hmap)
  have hcs : condSum c w = sumAmounts w := condSum_all c w hcond
  simp only [Zomboid.describe, Zomboid.new, Zomboid.set_take, Zomboid.set_skip]
  rw [hst, hfd]
  simp only [Except.map, List.map_cons, List.map_nil]
  rw [hcs, fdiv_self _ htot]

/-- Witness for `describe_single_condition_no_overflow`: two "Mint" records
with amounts 2 and 3, full window. -/
theorem describe_single_condition_no_overflow_witness :
    (([⟨1, "a", "t", "Mint", 2⟩, ⟨2, "b", "t", "Mint", 3⟩] : List Item) ≠ []
      ∧ (∀ i ∈ ([⟨1, "a", "t", "Mint", 2⟩, ⟨2, "b", "t", "Mint", 3⟩] : List Item), i.condition = "Mint")
      ∧ sumAmounts [⟨1, "a", "t", "Mint", 2⟩, ⟨2, "b", "t", "Mint", 3⟩] ≠ 0
      ∧ sumAmounts [⟨1, "a", "t", "Mint", 2⟩, ⟨2, "b", "t", "Mint", 3⟩] < U32MOD)
    ∧ ((((Zomboid.new (okList (ε := Unit) [⟨1, "a", "t", "Mint", 2⟩, ⟨2, "b", "t", "Mint", 3⟩])).set_take
          none).set_skip none).describe).1
      = Except.ok (((Table.new [{ name := "Mint", value := FVal.val 1 }]).with_header
          ["CONDITION", "%"]).with_width 40) :=
  ⟨⟨by decide, by decide, by decide, by decide⟩,
   describe_single_condition_no_overflow [⟨1, "a", "t", "Mint", 2⟩, ⟨2, "b", "t", "Mint", 3⟩]
     none none "Mint" [⟨1, "a", "t", "Mint", 2⟩, ⟨2, "b", "t", "Mint", 3⟩]
     (by rfl) (by decide) (by decide) (by decide) (by decide)⟩

/-- C6 counterexample: two records with distinct conditions and amount
`2^31 + 1` each. The window is non-empty and its grand total (whether the
mathematical sum `2^32 + 2` or the wrapped accumulator value `2`) is
non-zero, yet the two `Stat` values are `2147483649 / 2` each, so their sum
is `2147483649`, nowhere near `1.0`: the `u32` accumulators wrapped. -/
theorem describe_sum_overflow :
    (describeRun (ε := Unit) 0 USIZE_MAX
        [Except.ok ⟨1, "a", "t", "A", 2147483649⟩, Except.ok ⟨2, "b", "t", "B", 2147483649⟩]).1
      = Except.ok [{ name := "A", value := fdiv 2147483649 2 },
                   { name := "B", value := fdiv 2147483649 2 }]
    ∧ sumAmounts [⟨1, "a", "t", "A", 2147483649⟩, ⟨2, "b", "t", "B", 2147483649⟩] ≠ 0
    ∧ statSum [{ name := "A", value := fdiv 2147483649 2 },
               { name := "B", value := fdiv 2147483649 2 }] = 2147483649
    ∧ ¬|statSum [{ name := "A", value := fdiv 2147483649 2 },
                 { name := "B", value := fdiv 2147483649 2 }] - 1| ≤ 1 / 1000000000 := by
  have hq : fdiv 2147483649 2 = FVal.val ((2147483649 : ℚ) / 2) := by norm_num [fdiv]
  have hs : statSum [{ name := "A", value := fdiv 2147483649 2 },
      { name := "B", value := fdiv 2147483649 2 }] = 2147483649 := by
    rw [statSum, hq]
    norm_num
  refine ⟨by rfl, by norm_num [sumAmounts], hs, ?_⟩
  rw [hs]
  norm_num

/-- C6 amended: for every non-empty window whose total `amount`
(mathematical sum) is non-zero **and below `2^32`** (so the `u32`
accumulators do not wrap), `describe` returns one `Stat` per distinct
condition (in first-appearance order), valued at that condition's summed
amount divided by the grand total, and the values sum to exactly 1, hence
to 1.0 within the spec's `1e-9` tolerance. -/
theorem describe_fraction_sum {ε : Type} (items : List Item) (s t : Option Nat)
    (w : List Item) (hw : w = (items.drop (s.getD 0)).take (t.getD USIZE_MAX))
    (hne : w ≠ []) (hover : sumAmounts w < U32MOD) (hnz : sumAmounts w ≠ 0) :
    ((((Zomboid.new (okList (ε := ε) items)).set_take t).set_skip s).describe).1
      = Except.ok (((Table.new ((firstDedup (w.map fun i => i.condition)).map
          fun c => { name := c,
                     value := FVal.val ((condSum c w : ℚ) / (sumAmounts w : ℚ)) })).with_header
          ["CONDITION", "%"]).with_width 40)
    ∧ ((firstDedup (w.map fun i => i.condition)).map
        fun c => (condSum c w : ℚ) / (sumAmounts w : ℚ)).sum = 1
    ∧ |((firstDedup (w.map fun i => i.condition)).map
        fun c => (condSum c w : ℚ) / (sumAmounts w : ℚ)).sum - 1| ≤ 1 / 1000000000 := by
  have ht0 : t.getD USIZE_MAX ≠ 0 := by
    intro h0
    rw [h0, List.take_zero] at hw
    exact hne hw
  have hsum1 : ((firstDedup (w.map fun i => i.condition)).map
      fun c => (condSum c w : ℚ) / (sumAmounts w : ℚ)).sum = 1 := by
    have hcov : ∀ i ∈ w, i.condition ∈ firstDedup (w.map fun i => i.condition) :=
      fun i hi => (mem_firstDedup _ _).mpr (List.mem_map_of_mem _ hi)
    have hnat := sum_condSum w (firstDedup (w.map fun i => i.condition))
      (firstDedup_nodup _) hcov
    have hdiv : (fun c => (condSum c w : ℚ) / (sumAmounts w : ℚ))
        = fun c => (condSum c w : ℚ) * ((sumAmounts w : ℚ))⁻¹ :=
      funext fun c => div_eq_mul_inv _ _
    rw [hdiv, List.sum_map_mul_right]
    have hcast : ((firstDedup (w.map fun i => i.condition)).map
        fun c => (condSum c w : ℚ)).sum = ((sumAmounts w : ℚ)) := by
      rw [show (fun c => ((condSum c w : ℕ) : ℚ))
          = (fun n : ℕ => (n : ℚ)) ∘ (fun c => condSum c w) from rfl]
      rw [← List.map_map, ← Nat.cast_list_sum, hnat]
    rw [hcast, mul_inv_cancel₀ (Nat.cast_ne_zero.mpr hnz)]
  have hst := describe_window_stats (ε := ε) (s.getD 0) (t.getD USIZE_MAX) items ht0 w hw
  have hmap : ((firstDedup (w.map fun i => i.condition)).map
      fun c => ({ name := c, value := fdiv (condSum c w % U32MOD) (sumAmounts w % U32MOD) } : Stat))
      = (firstDedup (w.map fun i => i.condition)).map
          fun c => { name := c, value := FVal.val ((condSum c w : ℚ) / (sumAmounts w : ℚ)) } := by
    apply List.map_congr_left
    intro x hx
    rw [Nat.mod_eq_of_lt (lt_of_le_of_lt (condSum_le_sumAmounts x w) hover),
      Nat.mod_eq_of_lt hover]
    unfold fdiv
    rw [if_neg hnz]
  refine ⟨?_, hsum1, by rw [hsum1]; norm_num⟩
  simp only [Zomboid.describe, Zomboid.new, Zomboid.set_take, Zomboid.set_skip]
  rw [hst, hmap]
  simp only [Except.map]

/-- Witness for `describe_fraction_sum`: conditions "A" (amount 1) and "B"
(amount 3), full window. -/
theorem describe_fraction_sum_witness :
    (([⟨1, "a", "t", "A", 1⟩, ⟨2, "b", "t", "B", 3⟩] : List Item) ≠ []
      ∧ sumAmounts [⟨1, "a", "t", "A", 1⟩, ⟨2, "b", "t", "B", 3⟩] < U32MOD
      ∧ sumAmounts [⟨1, "a", "t", "A", 1⟩, ⟨2, "b", "t", "B", 3⟩] ≠ 0)
    ∧ (((((Zomboid.new (okList (ε := Unit) [⟨1, "a", "t", "A", 1⟩, ⟨2, "b", "t", "B", 3⟩])).set_take
          none).set_skip none).describe).1
        = Except.ok (((Table.new ((firstDedup (([⟨1, "a", "t", "A", 1⟩, ⟨2, "b", "t", "B", 3⟩] : List Item).map
            fun i => i.condition)).map
            fun c => { name := c,
                       value := FVal.val ((condSum c [⟨1, "a", "t", "A", 1⟩, ⟨2, "b", "t", "B", 3⟩] : ℚ)
                         / (sumAmounts [⟨1, "a", "t", "A", 1⟩, ⟨2, "b", "t", "B", 3⟩] : ℚ)) })).with_header
            ["CONDITION", "%"]).with_width 40)
      ∧ ((firstDedup (([⟨1, "a", "t", "A", 1⟩, ⟨2, "b", "t", "B", 3⟩] : List Item).map
          fun i => i.condition)).map
          fun c => (condSum c [⟨1, "a", "t", "A", 1⟩, ⟨2, "b", "t", "B", 3⟩] : ℚ)
            / (sumAmounts [⟨1, "a", "t", "A", 1⟩, ⟨2, "b", "t", "B", 3⟩] : ℚ)).sum = 1
      ∧ |((firstDedup (([⟨1, "a", "t", "A", 1⟩, ⟨2, "b", "t", "B", 3⟩] : List Item).map
          fun i => i.condition)).map
          fun c => (condSum c [⟨1, "a", "t", "A", 1⟩, ⟨2, "b", "t", "B", 3⟩] : ℚ)
            / (sumAmounts [⟨1, "a", "t", "A", 1⟩, ⟨2, "b", "t", "B", 3⟩] : ℚ)).sum - 1| ≤ 1 / 1000000000) :=
  ⟨⟨by decide, by decide, by decide⟩,
   describe_fraction_sum [⟨1, "a", "t", "A", 1⟩, ⟨2, "b", "t", "B", 3⟩] none none
     [⟨1, "a", "t", "A", 1⟩, ⟨2, "b", "t", "B", 3⟩] (by rfl) (by decide) (by decide) (by decide)⟩

/-- C9: the `describe` accumulators are wrapping 32-bit: the per-condition
group totals and the grand total are always the mathematical sums reduced
`% 2^32`; when the window's total amount is below `2^32` (hypothesis), they
equal the exact mathematical sums. -/
theorem describe_accumulator_u32 {ε : Type} (w : List Item) (t : Nat) (ht : w.length ≤ t) :
    descLoop (ε := ε) t (okList w) [] 0
      = (Except.ok ((firstDedup (w.map fun i => i.condition)).map
            fun c => (c, condSum c w % U32MOD),
          sumAmounts w % U32MOD), [])
    ∧ (sumAmounts w < U32MOD →
        sumAmounts w % U32MOD = sumAmounts w
        ∧ ∀ c : String, condSum c w % U32MOD = condSum c w) := by
  constructor
  · rw [descLoop_okList, List.take_of_length_le ht, List.drop_eq_nil_of_le ht]
    have htot : w.foldl (fun acc i => (acc + i.amount) % U32MOD) 0
        = sumAmounts w % U32MOD := by
      simpa using total_fold w 0
    rw [groups_spec, htot, okList]
  · intro h
    exact ⟨Nat.mod_eq_of_lt h,
      fun c => Nat.mod_eq_of_lt (lt_of_le_of_lt (condSum_le_sumAmounts c w) h)⟩

/-- Witness for `describe_accumulator_u32`: one record, budget 5. -/
theorem describe_accumulator_u32_witness :
    ([⟨1, "a", "t", "A", 1⟩] : List Item).length ≤ 5
    ∧ (descLoop (ε := Unit) 5 (okList [⟨1, "a", "t", "A", 1⟩]) [] 0
        = (Except.ok ((firstDedup (([⟨1, "a", "t", "A", 1⟩] : List Item).map
              fun i => i.condition)).map
              fun c => (c, condSum c [⟨1, "a", "t", "A", 1⟩] % U32MOD),
            sumAmounts [⟨1, "a", "t", "A", 1⟩] % U32MOD), [])
      ∧ (sumAmounts [⟨1, "a", "t", "A", 1⟩] < U32MOD →
          sumAmounts [⟨1, "a", "t", "A", 1⟩] % U32MOD = sumAmounts [⟨1, "a", "t", "A", 1⟩]
          ∧ ∀ c : String, condSum c [⟨1, "a", "t", "A", 1⟩] % U32MOD
              = condSum c [⟨1, "a", "t", "A", 1⟩])) :=
  ⟨by decide, describe_accumulator_u32 [⟨1, "a", "t", "A", 1⟩] 5 (by decide)⟩

theorem sepLine_some_iff (l r : Char) (w : Nat) (line : List Char) :
    sepLine l r w = some line
      ↔ 2 ≤ w ∧ line = l :: (List.replicate (w - 2) '─' ++ [r]) := by
  unfold sepLine checkedSub
  by_cases h2 : 2 ≤ w
  · simp [h2, eq_comm]
  · simp [h2]

theorem sepLine_shape_length (l r : Char) (w : Nat) (h2 : 2 ≤ w) :
    (l :: (List.replicate (w - 2) '─' ++ [r])).length = w := by
  simp [List.length_replicate]
  omega

theorem renderRows_length {α : Type} (rowFn : α → Nat → Option (List Char)) (w : Nat)
    (data : List α) (rls : List (List Char))
    (h : renderRows rowFn w data = some rls) : rls.length = data.length := by
  induction data generalizing rls with
  | nil =>
      unfold renderRows at h
      cases h
      rfl
  | cons x xs ih =>
      unfold renderRows at h
      cases hx : rowFn x w with
      | none => rw [hx] at h; cases h
      | some line =>
          cases hr : renderRows rowFn w xs with
          | none => rw [hx, hr] at h; cases h
          | some ls =>
              rw [hx, hr] at h
              cases h
              simp [ih ls hr]

/-- C7: whenever rendering succeeds, the output is exactly a top border,
then (only if a header is present) a header row followed by a middle
border, then one line per data row in order, then a bottom border; and
each border line is exactly `width` characters — the corner glyphs around
a `width - 2` horizontal rule. -/
theorem render_structure {α : Type} (t : Table α) (rowFn : α → Nat → Option (List Char))
    (lines : List (List Char)) (h : t.render rowFn = some lines) :
    2 ≤ t.width
    ∧ (∃ rls, renderRows rowFn t.width t.data = some rls
        ∧ rls.length = t.data.length
        ∧ ((t.header = none
             ∧ lines = ('┌' :: (List.replicate (t.width - 2) '─' ++ ['┐'])) :: rls
                 ++ [('└' :: (List.replicate (t.width - 2) '─' ++ ['┘']))])
           ∨ (∃ hd hl, t.header = some hd ∧ headerToRow hd t.width = some hl
               ∧ lines = ('┌' :: (List.replicate (t.width - 2) '─' ++ ['┐'])) :: hl
                   :: ('├' :: (List.replicate (t.width - 2) '─' ++ ['┤'])) :: rls
                   ++ [('└' :: (List.replicate (t.width - 2) '─' ++ ['┘']))])))
    ∧ ('┌' :: (List.replicate (t.width - 2) '─' ++ ['┐'])).length = t.width
    ∧ ('├' :: (List.replicate (t.width - 2) '─' ++ ['┤'])).length = t.width
    ∧ ('└' :: (List.replicate (t.width - 2) '─' ++ ['┘'])).length = t.width := by
  unfold Table.render at h
  cases htop : sepLine '┌' '┐' t.width with
  | none => rw [htop] at h; cases h
  | some top =>
  cases hmid : sepLine '├' '┤' t.width with
  | none => rw [htop, hmid] at h; cases h
  | some mid =>
  cases hbot : sepLine '└' '┘' t.width with
  | none => rw [htop, hmid, hbot] at h; cases h
  | some bot =>
  rw [htop, hmid, hbot] at h
  dsimp only at h
  rcases (sepLine_some_iff _ _ _ _).mp htop with ⟨h2, htopeq⟩
  rcases (sepLine_some_iff _ _ _ _).mp hmid with ⟨_, hmideq⟩
  rcases (sepLine_some_iff _ _ _ _).mp hbot with ⟨_, hboteq⟩
  subst htopeq; subst hmideq; subst hboteq
  refine ⟨h2, ?_, sepLine_shape_length _ _ _ h2, sepLine_shape_length _ _ _ h2,
    sepLine_shape_length _ _ _ h2⟩
  cases hh : t.header with
  | none =>
      rw [hh] at h
      dsimp only at h
      cases hr : renderRows rowFn t.width t.data with
      | none => rw [hr] at h; cases h
      | some rls =>
          rw [hr] at h
          cases h
          exact ⟨rls, rfl, renderRows_length _ _ _ _ hr, Or.inl ⟨rfl, rfl⟩⟩
  | some hd =>
      rw [hh] at h
      dsimp only at h
      cases hhl : headerToRow hd t.width with
      | none => rw [hhl] at h; cases h
      | some hl =>
          cases hr : renderRows rowFn t.width t.data with
          | none => rw [hhl, hr] at h; cases h
          | some rls =>
              rw [hhl, hr] at h
              cases h
              exact ⟨rls, rfl, renderRows_length _ _ _ _ hr,
                Or.inr ⟨hd, hl, rfl, hhl, rfl⟩⟩

/-- Witness for `render_structure`: a two-cell header, one trivial row,
width 10. -/
theorem render_structure_witness :
    ((((Table.new [()]).with_header ["A", "B"]).with_width 10).render
        (fun _ _ => some ['r'])
      = some ["┌────────┐".data, "│ A  │ B │".data, "├────────┤".data, ['r'], "└────────┘".data])
    ∧ (2 ≤ (((Table.new [()]).with_header ["A", "B"]).with_width 10).width
    ∧ (∃ rls, renderRows (fun _ _ => some ['r'])
          (((Table.new [()]).with_header ["A", "B"]).with_width 10).width
          (((Table.new [()]).with_header ["A", "B"]).with_width 10).data = some rls
        ∧ rls.length = (((Table.new [()]).with_header ["A", "B"]).with_width 10).data.length
        ∧ (((((Table.new [()]).with_header ["A", "B"]).with_width 10).header = none
             ∧ ["┌────────┐".data, "│ A  │ B │".data, "├────────┤".data, ['r'], "└────────┘".data]
               = ('┌' :: (List.replicate ((((Table.new [()]).with_header ["A", "B"]).with_width 10).width - 2) '─' ++ ['┐'])) :: rls
                 ++ [('└' :: (List.replicate ((((Table.new [()]).with_header ["A", "B"]).with_width 10).width - 2) '─' ++ ['┘']))])
           ∨ (∃ hd hl, (((Table.new [()]).with_header ["A", "B"]).with_width 10).header = some hd
               ∧ headerToRow hd (((Table.new [()]).with_header ["A", "B"]).with_width 10).width = some hl
               ∧ ["┌────────┐".data, "│ A  │ B │".data, "├────────┤".data, ['r'], "└────────┘".data]
                 = ('┌' :: (List.replicate ((((Table.new [()]).with_header ["A", "B"]).with_width 10).width - 2) '─' ++ ['┐'])) :: hl
                   :: ('├' :: (List.replicate ((((Table.new [()]).with_header ["A", "B"]).with_width 10).width - 2) '─' ++ ['┤'])) :: rls
                   ++ [('└' :: (List.replicate ((((Table.new [()]).with_header ["A", "B"]).with_width 10).width - 2) '─' ++ ['┘']))])))
    ∧ ('┌' :: (List.replicate ((((Table.new [()]).with_header ["A", "B"]).with_width 10).width - 2) '─' ++ ['┐'])).length
        = (((Table.new [()]).with_header ["A", "B"]).with_width 10).width
    ∧ ('├' :: (List.replicate ((((Table.new [()]).with_header ["A", "B"]).with_width 10).width - 2) '─' ++ ['┤'])).length
        = (((Table.new [()]).with_header ["A", "B"]).with_width 10).width
    ∧ ('└' :: (List.replicate ((((Table.new [()]).with_header ["A", "B"]).with_width 10).width - 2) '─' ++ ['┘'])).length
        = (((Table.new [()]).with_header ["A", "B"]).with_width 10).width) :=
  ⟨by rfl,
   render_structure (((Table.new [()]).with_header ["A", "B"]).with_width 10)
     (fun _ _ => some ['r'])
     ["┌────────┐".data, "│ A  │ B │".data, "├────────┤".data, ['r'], "└────────┘".data]
     (by rfl)⟩

/-- C4 (failing inputs): at table width 14 the 5-column `Item` row computes
the cell width `14 / 5 - 3` in `usize`, which underflows — a panic, not an
explicit error (`none` in the model); at width 1 every border line computes
`1 - 2` and panics likewise; rendering such tables aborts instead of being
rejected as a recoverable error, contradicting the claim's mandated
guard. -/
theorem undersized_width_aborts :
    Item.to_row ⟨2, "Nails", "Fasteners", "Good", 400⟩ 14 = none
    ∧ sepLine '┌' '┐' 1 = none
    ∧ (((Table.new [(⟨2, "Nails", "Fasteners", "Good", 400⟩ : Item)]).with_header
        ["ID", "NAME", "TYPE", "CONDITION", "AMOUNT"]).with_width 14).render Item.to_row = none
    ∧ ((Table.new ([] : List Item)).with_width 1).render Item.to_row = none :=
  ⟨rfl, rfl, rfl, rfl⟩
